import Mathlib

/-!
Shallow embedding of the quote-retrieval and valuation pipeline of the
portfolio dashboard (source files `app.py` and `scripts/generate_daily_brief.py`).

Decimal prices are modelled as rationals (`ℚ`); Python `None` becomes `Option`;
a Python function that can raise is modelled with `Except String`, the string
being the exception text.  Python dicts keyed by instrument code are modelled as
association lists built from the empty list via an overwrite-or-append insert
(`dinsert`), matching dict assignment order semantics.
-/

/-- Model of Python `str.zfill(6)`: left-pad with `'0'` up to width 6, keeping a
leading sign in front of the padding; a string of length ≥ 6 is unchanged. -/
def zfill6 (s : String) : String :=
  if 6 ≤ s.length then s
  else
    match s.toList with
    | '+' :: rest => String.mk ('+' :: (List.replicate (6 - s.length) '0' ++ rest))
    | '-' :: rest => String.mk ('-' :: (List.replicate (6 - s.length) '0' ++ rest))
    | cs => String.mk (List.replicate (6 - s.length) '0' ++ cs)

/-- Model of Python `s.startswith(p)`. -/
def startswith (s p : String) : Bool :=
  p.toList.isPrefixOf s.toList

/-- Model of Python `str.split(sep)` for a one-character separator: splitting
the empty string gives `[[]]`, and separators at the ends give empty pieces,
exactly as in Python. -/
def splitOnChar (sep : Char) : List Char → List (List Char)
  | [] => [[]]
  | c :: rest =>
    let r := splitOnChar sep rest
    if c = sep then [] :: r
    else
      match r with
      | [] => [[c]]
      | g :: gs => (c :: g) :: gs

/-- Numeric value of a list of decimal digit characters. -/
def natVal (cs : List Char) : ℕ :=
  cs.foldl (fun a c => 10 * a + (c.toNat - 48)) 0

/-- Parse an unsigned decimal literal (`digits`, `digits.digits`, `.digits`,
`digits.`); anything else is `none`. -/
def parseUnsigned (cs : List Char) : Option ℚ :=
  let intPart := cs.takeWhile (fun c => c.isDigit)
  let rest := cs.dropWhile (fun c => c.isDigit)
  match rest with
  | [] => if intPart.isEmpty then none else some ((natVal intPart : ℚ))
  | '.' :: frac =>
    if frac.all (fun c => c.isDigit) then
      if intPart.isEmpty && frac.isEmpty then none
      else some ((natVal intPart : ℚ) + (natVal frac : ℚ) / ((10 : ℚ) ^ frac.length))
    else none
  | _ => none

/-- Model of the source's `safe_float`: `float(x)` on a decimal string literal
(optionally signed, surrounding whitespace stripped), and `None` when the text
does not parse as a number. -/
def safe_float (s : List Char) : Option ℚ :=
  let t := ((s.dropWhile Char.isWhitespace).reverse.dropWhile Char.isWhitespace).reverse
  match t with
  | '-' :: rest => (parseUnsigned rest).map (fun q => -q)
  | '+' :: rest => parseUnsigned rest
  | cs => parseUnsigned cs

/-- A quote as stored by the app's providers: the dict
`{"last": last, "prev_close": prev_close}`; `last` is always populated at
insertion time, `prev_close` may be `None`. -/
structure Quote where
  last : ℚ
  prev_close : Option ℚ
deriving DecidableEq

/-- A provider result / the failover fetcher's quote map: a Python dict from
6-digit-or-raw code strings to quotes. -/
abbrev QuoteMap := List (String × Quote)

/-- Dict assignment `m[k] = v`: overwrite in place if the key is present,
append otherwise. -/
def dinsert {α : Type} (m : List (String × α)) (k : String) (v : α) : List (String × α) :=
  if m.any (fun p => p.1 = k) then m.map (fun p => if p.1 = k then (k, v) else p)
  else m ++ [(k, v)]

/-- Dict lookup `m.get(k)`. -/
def qlookup {α : Type} (m : List (String × α)) (k : String) : Option α :=
  (m.find? (fun p => p.1 = k)).map (fun p => p.2)

/-- Attempt to match the regex `v_(sh|sz)(\d{6})="([^"]*)"` at the head of the
character list; on success return the 6-digit code (group 2) and the quoted
payload (group 3). -/
def matchTencentAt : List Char → Option (String × List Char)
  | 'v' :: '_' :: 's' :: ex :: d1 :: d2 :: d3 :: d4 :: d5 :: d6 :: '=' :: '"' :: body =>
    if (ex == 'h' || ex == 'z') && d1.isDigit && d2.isDigit && d3.isDigit
        && d4.isDigit && d5.isDigit && d6.isDigit then
      match body.dropWhile (fun c => c ≠ '"') with
      | '"' :: _ => some (String.mk [d1, d2, d3, d4, d5, d6], body.takeWhile (fun c => c ≠ '"'))
      | _ => none
    else none
  | _ => none

/-- Model of `re.search(r'v_(sh|sz)(\d{6})="([^"]*)"', line)`: the leftmost
position where the pattern matches, or `none`. -/
def reSearchTencent : List Char → Option (String × List Char)
  | [] => none
  | c :: rest =>
    match matchTencentAt (c :: rest) with
    | some r => some r
    | none => reSearchTencent rest

/-- One iteration of the record loop in `fetch_prices_tencent`: regex-match the
line, split the payload on `~`, require more than 4 fields, parse field 3 as
the last price and field 4 as the previous close, and keep the record only when
the last price parsed and is strictly positive (`if last and last > 0`). -/
def parseTencentRecord (line : List Char) : Option (String × Quote) :=
  match reSearchTencent line with
  | none => none
  | some (code, payload) =>
    let fields := splitOnChar '~' payload
    if 4 < fields.length then
      match safe_float (fields.getD 3 []) with
      | some l => if 0 < l then some (code, ⟨l, safe_float (fields.getD 4 [])⟩) else none
      | none => none
    else none

/-- The body of a record loop: insert the parsed record into the dict, or keep
the dict unchanged when the line was skipped. -/
def recStep {α : Type} (f : List Char → Option (String × α))
    (m : List (String × α)) (line : List Char) : List (String × α) :=
  match f line with
  | some (c, q) => dinsert m c q
  | none => m

/-- The parsing part of `fetch_prices_tencent` in `app.py`, applied to the
response text: split on `;` and fold the per-line parser into a dict. -/
def fetch_prices_tencent (text : String) : QuoteMap :=
  (splitOnChar ';' text.toList).foldl (recStep parseTencentRecord) []

/-- A quote as stored by the daily brief's tencent fetcher: the dict
`{"name": name, "last": last, "prev_close": prev}`. -/
structure BriefQuote where
  name : Option String
  last : ℚ
  prev_close : Option ℚ
deriving DecidableEq

/-- One iteration of the record loop in the brief's `fetch_tencent_quotes`:
identical to the app's parser except that it also records
`name = payload[1] if len(payload) > 1 else None`. -/
def parseBriefTencentRecord (line : List Char) : Option (String × BriefQuote) :=
  match reSearchTencent line with
  | none => none
  | some (code, payload) =>
    let fields := splitOnChar '~' payload
    if 4 < fields.length then
      match safe_float (fields.getD 3 []) with
      | some l =>
        if 0 < l then
          some (code,
            ⟨if 1 < fields.length then some (String.mk (fields.getD 1 [])) else none,
             l, safe_float (fields.getD 4 [])⟩)
        else none
      | none => none
    else none

/-- The parsing part of `fetch_tencent_quotes` in `generate_daily_brief.py`. -/
def fetch_tencent_quotes (text : String) : List (String × BriefQuote) :=
  (splitOnChar ';' text.toList).foldl (recStep parseBriefTencentRecord) []

/-- Model of `to_xq_symbol` in `fetch_prices_xueqiu`: zero-pad the code, then
prefix `SH` for codes starting with 6 or 9, else `SZ`. -/
def to_xq_symbol (code : String) : String :=
  let c := zfill6 code
  if startswith c "6" || startswith c "9" then "SH" ++ c else "SZ" ++ c

/-- Outcome of one per-code xueqiu request, after JSON traversal and
`safe_float`: the request raised (`fail`), returned a non-200 status
(`badStatus`), or yielded the parsed `current` and `last_close` fields
(each `none` when missing or not numeric). -/
inductive XqResp where
  | fail (msg : String)
  | badStatus
  | ok (current last_close : Option ℚ)

/-- The per-code loop of `fetch_prices_xueqiu`: skip non-200 responses, insert
a quote keyed by the raw input code when `current` parsed and is strictly
positive, and propagate an exception raised mid-loop (discarding the partial
dict, as Python does). -/
def xqGo (resp : String → XqResp) : List String → QuoteMap → Except String QuoteMap
  | [], acc => .ok acc
  | code :: rest, acc =>
    match resp (to_xq_symbol code) with
    | .fail e => .error e
    | .badStatus => xqGo resp rest acc
    | .ok cur lc =>
      match cur with
      | some l => if 0 < l then xqGo resp rest (dinsert acc code ⟨l, lc⟩) else xqGo resp rest acc
      | none => xqGo resp rest acc

/-- Model of `fetch_prices_xueqiu` in `app.py`, with the network abstracted as a map
from request symbol to response. -/
def fetch_prices_xueqiu (resp : String → XqResp) (codes : List String) : Except String QuoteMap :=
  xqGo resp codes []

/-- Model of `fetch_prices_akshare` in `app.py`: the full-market snapshot table
(`代码`, `最新价` columns) has its code column zero-padded; for each requested
code the first matching row's price is inserted under the padded code with
`prev_close = None` and no check on the price's sign. -/
def fetch_prices_akshare (table : List (String × ℚ)) (codes : List String) : QuoteMap :=
  let df := table.map (fun r => (zfill6 r.1, r.2))
  codes.foldl
    (fun m c =>
      match df.find? (fun r => r.1 = zfill6 c) with
      | some r => dinsert m (zfill6 c) ⟨r.2, none⟩
      | none => m) []

/-- Join accumulated diagnostics as `app.py` does:
`"；".join(err) if err else None`. -/
def joinErrs (errs : List String) : Option String :=
  match errs with
  | [] => none
  | e :: rest => some (rest.foldl (fun a b => a ++ "；" ++ b) e)

/-- The triple returned by `fetch_prices`: the quote map, the label of the
source that was used (or `None`), and the joined error string (or `None`). -/
structure FetchOutcome where
  quotes : QuoteMap
  used : Option String
  err : Option String
deriving DecidableEq

/-- Model of `fetch_prices` in `app.py`: branch on the preferred-source string, call the
corresponding provider inside try/except, fall back to tencent in the 雪球 and
akshare branches, and return `(quotes, used, joined errors)`.  Each provider
invocation is abstracted as its outcome: the returned map (`Except.ok`) or the
text of the exception it raised (`Except.error`). -/
def fetch_prices (xq tc ak : Except String QuoteMap) (preferred : String) : FetchOutcome :=
  if startswith preferred "雪球" then
    match xq with
    | .ok q =>
      if q.isEmpty then
        match tc with
        | .ok q2 => ⟨q2, some "腾讯(备用)", joinErrs ["雪球未取到数据（云端常见）"]⟩
        | .error e2 => ⟨q, none, joinErrs ["雪球未取到数据（云端常见）", "腾讯也失败：" ++ e2]⟩
      else ⟨q, some "雪球", none⟩
    | .error e =>
      match tc with
      | .ok q2 => ⟨q2, some "腾讯(备用)", joinErrs ["雪球失败：" ++ e]⟩
      | .error e2 => ⟨[], none, joinErrs ["雪球失败：" ++ e, "腾讯也失败：" ++ e2]⟩
  else if startswith preferred "腾讯" then
    match tc with
    | .ok q => ⟨q, some "腾讯", none⟩
    | .error e => ⟨[], none, joinErrs ["腾讯失败：" ++ e]⟩
  else
    match ak with
    | .ok q => ⟨q, some "akshare(东方财富)", none⟩
    | .error e =>
      match tc with
      | .ok q2 => ⟨q2, some "腾讯(备用)", joinErrs ["akshare失败：" ++ e]⟩
      | .error e2 => ⟨[], none, joinErrs ["akshare失败：" ++ e, "腾讯也失败：" ++ e2]⟩

/-- A holding as read from `holdings.json` by `app.py`: `code`, `name`,
`shares` and `cost` are all required there. -/
structure Holding where
  code : String
  name : String
  shares : ℚ
  cost : ℚ
deriving DecidableEq

/-- One row of the interactive table built in `app.py` (lines 220-250). -/
structure Row where
  code : String
  name : String
  shares : ℚ
  cost : ℚ
  prev_close : Option ℚ
  last : Option ℚ
  mv : Option ℚ
  today_pnl : Option ℚ
  today_return : Option ℚ
  total_pnl : Option ℚ
  total_return : Option ℚ
deriving DecidableEq

/-- The per-holding body of the row loop in `app.py`: look the zero-padded code
up in the quote dict and derive the five valuation fields, each `None` when its
inputs are missing. -/
def rowOf (quotes : QuoteMap) (h : Holding) : Row :=
  let code := zfill6 h.code
  let q := qlookup quotes code
  let last := q.map Quote.last
  let prev_close := q.bind Quote.prev_close
  { code := code
    name := h.name
    shares := h.shares
    cost := h.cost
    prev_close := prev_close
    last := last
    mv := last.map (fun l => l * h.shares)
    today_pnl :=
      match last, prev_close with
      | some l, some p => some ((l - p) * h.shares)
      | _, _ => none
    today_return :=
      match last, prev_close with
      | some l, some p => if 0 < p then some (l / p - 1) else none
      | _, _ => none
    total_pnl := last.map (fun l => (l - h.cost) * h.shares)
    total_return :=
      match last with
      | some l => if 0 < h.cost then some (l / h.cost - 1) else none
      | none => none }

/-- The full row list of the interactive table. -/
def app_rows (quotes : QuoteMap) (hs : List Holding) : List Row :=
  hs.map (rowOf quotes)

/-- The `cost_basis` accumulated over the whole holdings loop in `app.py`:
`Σ cost × shares` over ALL holdings, resolved or not. -/
def app_cost_basis (hs : List Holding) : ℚ :=
  (hs.map (fun h => h.cost * h.shares)).sum

/-- Model of `df[col].dropna().sum()`: sum of the present values of an optional column
(0 when nothing is present). -/
def optSum (xs : List (Option ℚ)) : ℚ :=
  (xs.filterMap id).sum

/-- The `mv_sum` of `app.py`. -/
def app_mv_sum (quotes : QuoteMap) (hs : List Holding) : ℚ :=
  optSum ((app_rows quotes hs).map Row.mv)

/-- The `today_pnl_sum` of `app.py`. -/
def app_today_pnl_sum (quotes : QuoteMap) (hs : List Holding) : ℚ :=
  optSum ((app_rows quotes hs).map Row.today_pnl)

/-- The `total_pnl_sum` of `app.py`. -/
def app_total_pnl_sum (quotes : QuoteMap) (hs : List Holding) : ℚ :=
  optSum ((app_rows quotes hs).map Row.total_pnl)

/-- The `overall_return` of `app.py` (line 257): a plain number, `0.0` when the
cost basis is not positive. -/
def app_overall_return (quotes : QuoteMap) (hs : List Holding) : ℚ :=
  if 0 < app_cost_basis hs then app_total_pnl_sum quotes hs / app_cost_basis hs else 0

/-- The `cash_est` of `app.py` (line 259). -/
def app_cash_est (total_assets : ℚ) (quotes : QuoteMap) (hs : List Holding) : ℚ :=
  max (total_assets - app_mv_sum quotes hs) 0

/-- Python `int(x)` on a number: truncation toward zero. -/
def pyInt (q : ℚ) : ℤ :=
  if 0 ≤ q then ⌊q⌋ else ⌈q⌉

/-- A holding as read by `generate_daily_brief.py`: only `code` is accessed
with `h["code"]`; `name`, `shares` and `cost` are read with `.get` defaults. -/
structure BriefHolding where
  code : String
  name : Option String
  shares : Option ℚ
  cost : Option ℚ
deriving DecidableEq

/-- One entry of the `pos` list built by the brief's `main` (lines 100-131). -/
structure BriefPos where
  code : String
  name : String
  shares : ℤ
  cost : ℚ
  last : Option ℚ
  prev_close : Option ℚ
  market_value : Option ℚ
  today_pnl : Option ℚ
  total_pnl : Option ℚ
  total_return : Option ℚ
deriving DecidableEq

/-- The per-holding body of the brief's loop: defaults applied
(`name` defaults to the padded code, `shares` and `cost` to 0), zero-padded
lookup, and the four derived fields (the brief has no `today_return`). -/
def briefPosOf (quotes : List (String × BriefQuote)) (h : BriefHolding) : BriefPos :=
  let code := zfill6 h.code
  let name := h.name.getD code
  let shares := h.shares.getD 0
  let cost := h.cost.getD 0
  let q := qlookup quotes code
  let last := q.map BriefQuote.last
  let prev := q.bind BriefQuote.prev_close
  { code := code
    name := name
    shares := pyInt shares
    cost := cost
    last := last
    prev_close := prev
    market_value := last.map (fun l => l * shares)
    today_pnl :=
      match last, prev with
      | some l, some p => some ((l - p) * shares)
      | _, _ => none
    total_pnl := last.map (fun l => (l - cost) * shares)
    total_return :=
      match last with
      | some l => if 0 < cost then some (l / cost - 1) else none
      | none => none }

/-- The brief's `pos` list. -/
def brief_pos (quotes : List (String × BriefQuote)) (hs : List BriefHolding) : List BriefPos :=
  hs.map (briefPosOf quotes)

/-- The `cost_basis` accumulated over the whole loop in the brief's `main`. -/
def brief_cost_basis (hs : List BriefHolding) : ℚ :=
  (hs.map (fun h => h.cost.getD 0 * h.shares.getD 0)).sum

/-- The `mv_sum` of the brief's `main` (`if mv is not None: mv_sum += mv`). -/
def brief_mv_sum (quotes : List (String × BriefQuote)) (hs : List BriefHolding) : ℚ :=
  optSum ((brief_pos quotes hs).map BriefPos.market_value)

/-- The `today_pnl_sum` of the brief's `main`. -/
def brief_today_pnl_sum (quotes : List (String × BriefQuote)) (hs : List BriefHolding) : ℚ :=
  optSum ((brief_pos quotes hs).map BriefPos.today_pnl)

/-- The `total_pnl_sum` of the brief's `main`. -/
def brief_total_pnl_sum (quotes : List (String × BriefQuote)) (hs : List BriefHolding) : ℚ :=
  optSum ((brief_pos quotes hs).map BriefPos.total_pnl)

/-- The `overall_return` of the brief's `main` (line 134): `None` when the cost
basis is not positive. -/
def brief_overall_return (quotes : List (String × BriefQuote)) (hs : List BriefHolding) : Option ℚ :=
  if 0 < brief_cost_basis hs then some (brief_total_pnl_sum quotes hs / brief_cost_basis hs)
  else none

/-- The `cash` of the brief's `main` (line 133). -/
def brief_cash (total_assets : ℚ) (quotes : List (String × BriefQuote)) (hs : List BriefHolding) : ℚ :=
  max (total_assets - brief_mv_sum quotes hs) 0

/-- The `portfolio` block of the brief snapshot. -/
structure BriefPortfolio where
  total_assets_rmb : ℚ
  cash_rmb : ℚ
  market_value_rmb : ℚ
  today_pnl_rmb : ℚ
  total_pnl_rmb : ℚ
  overall_return : Option ℚ
deriving DecidableEq

/-- The parts of the brief snapshot derived from quotes and holdings. -/
structure Brief where
  portfolio : BriefPortfolio
  holdings : List BriefPos
deriving DecidableEq

/-- The quote-dependent part of the brief's `main`: `fetch_tencent_quotes` is
called with no surrounding try/except, so a transport failure propagates and
no brief is produced; on a successful transport the metrics are computed from
whatever the parser extracted. -/
def brief_main (hs : List BriefHolding) (total_assets : ℚ) (transport : Except String String) :
    Except String Brief :=
  match transport with
  | .error e => .error e
  | .ok text =>
    let quotes := fetch_tencent_quotes text
    .ok
      { portfolio :=
          { total_assets_rmb := total_assets
            cash_rmb := brief_cash total_assets quotes hs
            market_value_rmb := brief_mv_sum quotes hs
            today_pnl_rmb := brief_today_pnl_sum quotes hs
            total_pnl_rmb := brief_total_pnl_sum quotes hs
            overall_return := brief_overall_return quotes hs }
        holdings := brief_pos quotes hs }

/-- Written from the spec's words, for comparison with the code: the aggregate
P&L summed over exactly the holdings whose zero-padded code resolves in the
quote map (an unresolved holding contributes nothing). -/
def spec_resolvedPnlSum (quotes : QuoteMap) (hs : List Holding) : ℚ :=
  (hs.map (fun h =>
    match qlookup quotes (zfill6 h.code) with
    | some q => (q.last - h.cost) * h.shares
    | none => 0)).sum

/-- Written from the spec's words, for the brief pipeline: the aggregate P&L
summed over exactly the holdings whose zero-padded code resolves. -/
def spec_briefResolvedPnlSum (quotes : List (String × BriefQuote)) (hs : List BriefHolding) : ℚ :=
  (hs.map (fun h =>
    match qlookup quotes (zfill6 h.code) with
    | some q => (q.last - h.cost.getD 0) * h.shares.getD 0
    | none => 0)).sum

deriving instance DecidableEq for Except

/-! Helper lemmas shared by the claim theorems. -/

theorem mem_dinsert {α : Type} {m : List (String × α)} {k : String} {v : α}
    {e : String × α} (he : e ∈ dinsert m k v) : e = (k, v) ∨ e ∈ m := by
  unfold dinsert at he
  by_cases h : m.any (fun p => decide (p.1 = k))
  · rw [if_pos h] at he
    rcases List.mem_map.mp he with ⟨p, hp, hfe⟩
    by_cases hk : p.1 = k
    · rw [if_pos hk] at hfe
      exact Or.inl hfe.symm
    · rw [if_neg hk] at hfe
      exact Or.inr (hfe ▸ hp)
  · rw [if_neg h] at he
    rcases List.mem_append.mp he with h1 | h1
    · exact Or.inr h1
    · exact Or.inl (List.mem_singleton.mp h1)

theorem foldl_dinsert_mem {α : Type} (f : List Char → Option (String × α)) :
    ∀ (lines : List (List Char)) (m0 : List (String × α)) (e : String × α),
      e ∈ lines.foldl (recStep f) m0 →
      e ∈ m0 ∨ ∃ line ∈ lines, f line = some e := by
  intro lines
  induction lines with
  | nil => intro m0 e he; exact Or.inl he
  | cons l rest ih =>
    intro m0 e he
    rw [List.foldl_cons] at he
    rcases ih _ e he with h1 | ⟨line, hline, hfe⟩
    · unfold recStep at h1
      split at h1
      · rename_i c q hf
        rcases mem_dinsert h1 with h2 | h2
        · exact Or.inr ⟨l, List.mem_cons_self l rest, by rw [hf, h2]⟩
        · exact Or.inl h2
      · exact Or.inl h1
    · exact Or.inr ⟨line, List.mem_cons_of_mem l hline, hfe⟩

theorem parseTencentRecord_last_pos {line : List Char} {c : String} {q : Quote}
    (h : parseTencentRecord line = some (c, q)) : 0 < q.last := by
  unfold parseTencentRecord at h
  split at h
  · simp at h
  · dsimp only [] at h
    split at h
    · split at h
      · split at h
        · injection h with h1
          injection h1 with h2 h3
          rw [← h3]
          assumption
        · simp at h
      · simp at h
    · simp at h

theorem xqGo_last_pos {resp : String → XqResp} :
    ∀ (codes : List String) (acc m : QuoteMap),
      xqGo resp codes acc = .ok m → (∀ e ∈ acc, 0 < e.2.last) → ∀ e ∈ m, 0 < e.2.last := by
  intro codes
  induction codes with
  | nil =>
    intro acc m hok hacc
    injection hok with h1
    exact h1 ▸ hacc
  | cons code rest ih =>
    intro acc m hok hacc
    unfold xqGo at hok
    split at hok
    · exact absurd hok (by simp)
    · exact ih acc m hok hacc
    · split at hok
      · split at hok
        · rename_i l hcur hl
          refine ih _ m hok ?_
          intro e he
          rcases mem_dinsert he with h1 | h1
          · rw [h1]
            exact hl
          · exact hacc e h1
        · exact ih acc m hok hacc
      · exact ih acc m hok hacc

theorem akshare_mem {table : List (String × ℚ)} :
    ∀ (codes : List String) (acc : QuoteMap) (e : String × Quote),
      e ∈ codes.foldl
        (fun m c =>
          match (table.map (fun r => (zfill6 r.1, r.2))).find? (fun r => r.1 = zfill6 c) with
          | some r => dinsert m (zfill6 c) ⟨r.2, none⟩
          | none => m) acc →
      e ∈ acc ∨ ∃ r ∈ table, e.1 = zfill6 r.1 ∧ e.2 = ⟨r.2, none⟩ := by
  intro codes
  induction codes with
  | nil => intro acc e he; exact Or.inl he
  | cons c rest ih =>
    intro acc e he
    rw [List.foldl_cons] at he
    rcases ih _ e he with h1 | h1
    · rcases hf : (table.map (fun r => (zfill6 r.1, r.2))).find? (fun r => r.1 = zfill6 c)
          with _ | r <;> rw [hf] at h1
      · exact Or.inl h1
      · rcases mem_dinsert h1 with h2 | h2
        · have hp : r.1 = zfill6 c := by
            have hd := List.find?_some hf
            simpa using hd
          have hrmem : r ∈ table.map (fun r => (zfill6 r.1, r.2)) :=
            List.mem_of_find?_eq_some hf
          rcases List.mem_map.mp hrmem with ⟨orig, horig, hor⟩
          have h1a : e.1 = zfill6 c := by rw [h2]
          have h2a : e.2 = ⟨r.2, none⟩ := by rw [h2]
          have hor1 : r.1 = zfill6 orig.1 := by rw [← hor]
          have hor2 : r.2 = orig.2 := by rw [← hor]
          refine Or.inr ⟨orig, horig, ?_, ?_⟩
          · rw [h1a, ← hp, hor1]
          · rw [h2a, hor2]
        · exact Or.inl h2
    · exact Or.inr h1

theorem optSum_nil : optSum [] = 0 := rfl

theorem optSum_cons (x : Option ℚ) (xs : List (Option ℚ)) :
    optSum (x :: xs) = x.getD 0 + optSum xs := by
  rcases x with _ | a <;> simp [optSum]

theorem rowOf_total_pnl (quotes : QuoteMap) (h : Holding) :
    (rowOf quotes h).total_pnl =
      (qlookup quotes (zfill6 h.code)).map (fun q => (q.last - h.cost) * h.shares) := by
  rcases hq : qlookup quotes (zfill6 h.code) with _ | q <;> simp [rowOf, hq]

theorem briefPosOf_total_pnl (quotes : List (String × BriefQuote)) (h : BriefHolding) :
    (briefPosOf quotes h).total_pnl =
      (qlookup quotes (zfill6 h.code)).map
        (fun q => (q.last - h.cost.getD 0) * h.shares.getD 0) := by
  rcases hq : qlookup quotes (zfill6 h.code) with _ | q <;> simp [briefPosOf, hq]

theorem app_total_pnl_sum_eq_spec (quotes : QuoteMap) (hs : List Holding) :
    app_total_pnl_sum quotes hs = spec_resolvedPnlSum quotes hs := by
  induction hs with
  | nil => rfl
  | cons h t ih =>
    unfold app_total_pnl_sum app_rows at ih ⊢
    rw [List.map_cons, List.map_cons, optSum_cons, ih, rowOf_total_pnl]
    unfold spec_resolvedPnlSum
    rw [List.map_cons, List.sum_cons]
    rcases hq : qlookup quotes (zfill6 h.code) with _ | q <;> simp [hq, spec_resolvedPnlSum]

theorem brief_total_pnl_sum_eq_spec (quotes : List (String × BriefQuote))
    (hs : List BriefHolding) :
    brief_total_pnl_sum quotes hs = spec_briefResolvedPnlSum quotes hs := by
  induction hs with
  | nil => rfl
  | cons h t ih =>
    unfold brief_total_pnl_sum brief_pos at ih ⊢
    rw [List.map_cons, List.map_cons, optSum_cons, ih, briefPosOf_total_pnl]
    unfold spec_briefResolvedPnlSum
    rw [List.map_cons, List.sum_cons]
    rcases hq : qlookup quotes (zfill6 h.code) with _ | q <;>
      simp [hq, spec_briefResolvedPnlSum]

theorem parseBriefTencentRecord_last_pos {line : List Char} {c : String} {q : BriefQuote}
    (h : parseBriefTencentRecord line = some (c, q)) : 0 < q.last := by
  unfold parseBriefTencentRecord at h
  split at h
  · simp at h
  · dsimp only [] at h
    split at h
    · split at h
      · split at h
        · injection h with h1
          injection h1 with h2 h3
          rw [← h3]
          assumption
        · simp at h
      · simp at h
    · simp at h

/-! Claim theorems. -/

/-- C9: for every total-assets value and every holdings/quote combination, the
interactive `cash_est` and the brief's `cash` equal
`max(total_assets − Σ market_value, 0)` and are never negative, even when the
summed market value exceeds the declared total assets. -/
theorem c9_cash_floor :
    ∀ (ta : ℚ) (quotes : QuoteMap) (hs : List Holding) (bta : ℚ)
      (bq : List (String × BriefQuote)) (bhs : List BriefHolding),
      app_cash_est ta quotes hs = max (ta - app_mv_sum quotes hs) 0 ∧
      0 ≤ app_cash_est ta quotes hs ∧
      brief_cash bta bq bhs = max (bta - brief_mv_sum bq bhs) 0 ∧
      0 ≤ brief_cash bta bq bhs := by
  intro ta quotes hs bta bq bhs
  exact ⟨rfl, le_max_right _ 0, rfl, le_max_right _ 0⟩

/-- C2 counterexample: in the interactive pipeline (`app.py` line 257), a zero
cost basis makes `overall_return` the present number `0.0`, not an absent
value, contradicting the claim that it is absent whenever the basis is zero. -/
theorem c2_zero_basis_counterexample :
    app_cost_basis [] = 0 ∧ app_overall_return [] [] = 0 := by
  decide

/-- C2 amended: when the cost basis is positive both pipelines compute
`Σ total_pnl / Σ (cost × shares)`; when it is not positive the brief's
`overall_return` is absent (`None`) but the interactive pipeline's is the
present number `0.0`. -/
theorem c2_overall_return_amended :
    ∀ (quotes : QuoteMap) (hs : List Holding) (bq : List (String × BriefQuote))
      (bhs : List BriefHolding),
      (0 < app_cost_basis hs →
        app_overall_return quotes hs = app_total_pnl_sum quotes hs / app_cost_basis hs) ∧
      (¬ 0 < app_cost_basis hs → app_overall_return quotes hs = 0) ∧
      (0 < brief_cost_basis bhs →
        brief_overall_return bq bhs = some (brief_total_pnl_sum bq bhs / brief_cost_basis bhs)) ∧
      (¬ 0 < brief_cost_basis bhs → brief_overall_return bq bhs = none) := by
  intro quotes hs bq bhs
  refine ⟨fun h => ?_, fun h => ?_, fun h => ?_, fun h => ?_⟩
  · unfold app_overall_return
    rw [if_pos h]
  · unfold app_overall_return
    rw [if_neg h]
  · unfold brief_overall_return
    rw [if_pos h]
  · unfold brief_overall_return
    rw [if_neg h]

/-- Witness for the amended C2 at concrete inputs: one holding with positive
basis in the interactive pipeline, and an empty brief portfolio whose
`overall_return` is absent. -/
theorem c2_overall_return_amended_witness :
    app_overall_return [] [⟨"600000", "n", 100, 10⟩] =
      app_total_pnl_sum [] [⟨"600000", "n", 100, 10⟩] / app_cost_basis [⟨"600000", "n", 100, 10⟩] ∧
    brief_overall_return [] [] = none := by
  have h := c2_overall_return_amended [] [⟨"600000", "n", 100, 10⟩] [] []
  exact ⟨h.1 (by norm_num [app_cost_basis]), h.2.2.2 (by norm_num [brief_cost_basis])⟩

/-- C8: whenever the cost basis is positive, `overall_return` in both
pipelines equals the resolved-only P&L sum (holdings without a quote
contribute nothing to the numerator) divided by the cost basis taken over ALL
holdings. -/
theorem c8_overall_return_asymmetry :
    ∀ (quotes : QuoteMap) (hs : List Holding) (bq : List (String × BriefQuote))
      (bhs : List BriefHolding),
      (0 < app_cost_basis hs →
        app_overall_return quotes hs = spec_resolvedPnlSum quotes hs / app_cost_basis hs) ∧
      (0 < brief_cost_basis bhs →
        brief_overall_return bq bhs =
          some (spec_briefResolvedPnlSum bq bhs / brief_cost_basis bhs)) := by
  intro quotes hs bq bhs
  constructor
  · intro h
    unfold app_overall_return
    rw [if_pos h, app_total_pnl_sum_eq_spec]
  · intro h
    unfold brief_overall_return
    rw [if_pos h, brief_total_pnl_sum_eq_spec]

/-- Witness for C8 at a concrete input with one resolved and one unresolved
holding: the numerator sums only the resolved holding while the denominator
covers both. -/
theorem c8_overall_return_asymmetry_witness :
    app_overall_return [("600000", ⟨12, some 11⟩)]
        [⟨"600000", "a", 100, 10⟩, ⟨"000001", "b", 50, 20⟩] =
      spec_resolvedPnlSum [("600000", ⟨12, some 11⟩)]
          [⟨"600000", "a", 100, 10⟩, ⟨"000001", "b", 50, 20⟩] /
        app_cost_basis [⟨"600000", "a", 100, 10⟩, ⟨"000001", "b", 50, 20⟩] := by
  exact (c8_overall_return_asymmetry [("600000", ⟨12, some 11⟩)]
    [⟨"600000", "a", 100, 10⟩, ⟨"000001", "b", 50, 20⟩] [] []).1 (by norm_num [app_cost_basis])

/-- C1 counterexample: the complete row the brief's `main` appends for a
resolved holding whose previous close is present and positive — it consists of
exactly the four derived fields `market_value`, `today_pnl`, `total_pnl` and
`total_return`, so the brief never computes a `today_return`
(`last/previous_close − 1` would be `1/11` here), refuting the claimed
fifth-field biconditional at the brief call site. -/
theorem c1_brief_no_today_return :
    briefPosOf [("600000", ⟨some "浦发银行", 12, some 11⟩)]
        ⟨"600000", some "demo", some 100, some 10⟩ =
      { code := "600000", name := "demo", shares := 100, cost := 10,
        last := some 12, prev_close := some 11,
        market_value := some 1200, today_pnl := some 100,
        total_pnl := some 200, total_return := some (1/5) } := by
  have hz : zfill6 "600000" = "600000" := by decide
  have hq : qlookup [("600000", (⟨some "浦发银行", 12, some 11⟩ : BriefQuote))] "600000" =
      some ⟨some "浦发银行", 12, some 11⟩ := by decide
  simp [briefPosOf, hz, hq, pyInt]
  norm_num

/-- C1 amended: for a holding whose zero-padded code resolves in the quote
map, the interactive row has `market_value = last × shares`,
`total_pnl = (last − cost) × shares`, `total_return = last/cost − 1` exactly
when `cost > 0` and absent otherwise, `today_pnl = (last − prev_close) × shares`
exactly when `prev_close` is present and absent otherwise, and
`today_return = last/prev_close − 1` exactly when `prev_close` is present and
positive, absent otherwise; for an unresolved code all five fields are absent.
The brief's row computes only the four derived fields `market_value`,
`today_pnl`, `total_pnl`, `total_return` (never a `today_return`), and they
obey the same semantics, with all four absent for an unresolved code. -/
theorem c1_valuation_fields :
    ∀ (quotes : QuoteMap) (h : Holding) (bq : List (String × BriefQuote)) (bh : BriefHolding),
      (∀ q, qlookup quotes (zfill6 h.code) = some q →
        (rowOf quotes h).mv = some (q.last * h.shares) ∧
        (rowOf quotes h).total_pnl = some ((q.last - h.cost) * h.shares) ∧
        (0 < h.cost → (rowOf quotes h).total_return = some (q.last / h.cost - 1)) ∧
        (¬ 0 < h.cost → (rowOf quotes h).total_return = none) ∧
        (∀ p, q.prev_close = some p →
          (rowOf quotes h).today_pnl = some ((q.last - p) * h.shares)) ∧
        (q.prev_close = none → (rowOf quotes h).today_pnl = none) ∧
        (∀ p, q.prev_close = some p → 0 < p →
          (rowOf quotes h).today_return = some (q.last / p - 1)) ∧
        (∀ p, q.prev_close = some p → ¬ 0 < p → (rowOf quotes h).today_return = none) ∧
        (q.prev_close = none → (rowOf quotes h).today_return = none)) ∧
      (qlookup quotes (zfill6 h.code) = none →
        (rowOf quotes h).mv = none ∧ (rowOf quotes h).today_pnl = none ∧
        (rowOf quotes h).today_return = none ∧ (rowOf quotes h).total_pnl = none ∧
        (rowOf quotes h).total_return = none) ∧
      (∀ q, qlookup bq (zfill6 bh.code) = some q →
        (briefPosOf bq bh).market_value = some (q.last * bh.shares.getD 0) ∧
        (briefPosOf bq bh).total_pnl = some ((q.last - bh.cost.getD 0) * bh.shares.getD 0) ∧
        (0 < bh.cost.getD 0 →
          (briefPosOf bq bh).total_return = some (q.last / bh.cost.getD 0 - 1)) ∧
        (¬ 0 < bh.cost.getD 0 → (briefPosOf bq bh).total_return = none) ∧
        (∀ p, q.prev_close = some p →
          (briefPosOf bq bh).today_pnl = some ((q.last - p) * bh.shares.getD 0)) ∧
        (q.prev_close = none → (briefPosOf bq bh).today_pnl = none)) ∧
      (qlookup bq (zfill6 bh.code) = none →
        (briefPosOf bq bh).market_value = none ∧ (briefPosOf bq bh).today_pnl = none ∧
        (briefPosOf bq bh).total_pnl = none ∧ (briefPosOf bq bh).total_return = none) := by
  intro quotes h bq bh
  refine ⟨?_, ?_, ?_, ?_⟩
  · intro q hq
    refine ⟨?_, ?_, fun hc => ?_, fun hc => ?_, fun p hp => ?_, fun hp => ?_,
      fun p hp hpp => ?_, fun p hp hpp => ?_, fun hp => ?_⟩ <;>
      simp [rowOf, hq, *]
  · intro hq
    simp [rowOf, hq]
  · intro q hq
    refine ⟨?_, ?_, fun hc => ?_, fun hc => ?_, fun p hp => ?_, fun hp => ?_⟩ <;>
      simp [briefPosOf, hq, *]
  · intro hq
    simp [briefPosOf, hq]

/-- Witness for C1 at a concrete resolved holding (and an unresolved brief
holding): the end-to-end example values of the spec. -/
theorem c1_valuation_fields_witness :
    (rowOf [("600000", ⟨12, some 11⟩)] ⟨"600000", "demo", 100, 10⟩).mv = some 1200 ∧
    (rowOf [("600000", ⟨12, some 11⟩)] ⟨"600000", "demo", 100, 10⟩).total_pnl = some 200 ∧
    (rowOf [("600000", ⟨12, some 11⟩)] ⟨"600000", "demo", 100, 10⟩).total_return = some (1/5) ∧
    (rowOf [("600000", ⟨12, some 11⟩)] ⟨"600000", "demo", 100, 10⟩).today_pnl = some 100 ∧
    (rowOf [("600000", ⟨12, some 11⟩)] ⟨"600000", "demo", 100, 10⟩).today_return = some (1/11) ∧
    (briefPosOf [] ⟨"000001", none, none, none⟩).market_value = none := by
  have h := c1_valuation_fields [("600000", ⟨12, some 11⟩)] ⟨"600000", "demo", 100, 10⟩
    [] ⟨"000001", none, none, none⟩
  have hq : qlookup [("600000", (⟨12, some 11⟩ : Quote))] (zfill6 "600000") =
      some ⟨12, some 11⟩ := by decide
  have hbq : qlookup ([] : List (String × BriefQuote)) (zfill6 "000001") = none := by decide
  obtain ⟨h1, h2, h3, h4⟩ := h
  obtain ⟨hmv, hpnl, hret, _, hto, _, htr, _, _⟩ := h1 ⟨12, some 11⟩ hq
  refine ⟨?_, ?_, ?_, ?_, ?_, (h4 hbq).1⟩
  · rw [hmv]
    norm_num
  · rw [hpnl]
    norm_num
  · rw [hret (by norm_num)]
    norm_num
  · rw [hto 11 rfl]
    norm_num
  · rw [htr 11 rfl (by norm_num)]
    norm_num

/-- C4 counterexample: the akshare provider inserts a matched table row even
when its last price is 0, so its result can contain an entry whose `last` is
not strictly positive, contradicting the claim for that provider variant. -/
theorem c4_akshare_counterexample :
    ("600000", (⟨0, none⟩ : Quote)) ∈ fetch_prices_akshare [("600000", 0)] ["600000"] ∧
    ¬ (0 : ℚ) < (Quote.mk 0 none).last := by
  decide

/-- C4 amended: every entry produced by the tencent parsers (interactive and
brief) and by a successful xueqiu fetch has a strictly positive `last`
(missing, malformed or non-positive prices are dropped); the akshare variant
instead copies the matched table row's price verbatim, with no positivity
check and `prev_close` always absent. -/
theorem c4_positive_last_amended :
    ∀ (text : String) (resp : String → XqResp) (codes : List String) (m : QuoteMap)
      (table : List (String × ℚ)) (codes2 : List String),
      (∀ e ∈ fetch_prices_tencent text, 0 < e.2.last) ∧
      (∀ e ∈ fetch_tencent_quotes text, 0 < e.2.last) ∧
      (fetch_prices_xueqiu resp codes = .ok m → ∀ e ∈ m, 0 < e.2.last) ∧
      (∀ e ∈ fetch_prices_akshare table codes2,
        ∃ r ∈ table, e.1 = zfill6 r.1 ∧ e.2 = ⟨r.2, none⟩) := by
  intro text resp codes m table codes2
  refine ⟨?_, ?_, ?_, ?_⟩
  · intro e he
    unfold fetch_prices_tencent at he
    rcases foldl_dinsert_mem parseTencentRecord _ _ e he with h1 | ⟨line, _, hp⟩
    · exact absurd h1 (by simp)
    · exact parseTencentRecord_last_pos hp
  · intro e he
    unfold fetch_tencent_quotes at he
    rcases foldl_dinsert_mem parseBriefTencentRecord _ _ e he with h1 | ⟨line, _, hp⟩
    · exact absurd h1 (by simp)
    · exact parseBriefTencentRecord_last_pos hp
  · intro hok
    exact xqGo_last_pos codes [] m hok (by simp)
  · intro e he
    unfold fetch_prices_akshare at he
    exact (akshare_mem codes2 [] e he).resolve_left (by simp)

/-- Witness for the amended C4: concrete provider responses exercising the
tencent conjunct and the xueqiu conjunct. -/
theorem c4_positive_last_amended_witness :
    (∀ e ∈ fetch_prices_tencent "v_sh600000=\"a~b~c~9.5~9.0\"", 0 < e.2.last) ∧
    (∀ e ∈ ([("600", (⟨12, some 11⟩ : Quote))] : QuoteMap), 0 < e.2.last) := by
  have h := c4_positive_last_amended "v_sh600000=\"a~b~c~9.5~9.0\""
    (fun s => if s = "SZ000600" then XqResp.ok (some 12) (some 11) else XqResp.badStatus)
    ["600"] [("600", ⟨12, some 11⟩)] [] []
  exact ⟨h.1, h.2.2.1 (by decide)⟩

/-- C5: `fetch_prices_xueqiu` keys its result by the raw input code, not by the
6-character zero-padded form — for input code `"600"` the result key is
`"600"` while the zero-padded form is `"000600"`, and the valuation's
zero-padded lookup then misses the quote entirely. -/
theorem c5_xueqiu_raw_key :
    fetch_prices_xueqiu
        (fun s => if s = "SZ000600" then XqResp.ok (some 12) (some 11) else XqResp.badStatus)
        ["600"] = Except.ok [("600", ⟨12, some 11⟩)] ∧
    zfill6 "600" = "000600" ∧
    qlookup [("600", (⟨12, some 11⟩ : Quote))] (zfill6 "600") = none ∧
    (rowOf [("600", ⟨12, some 11⟩)] ⟨"600", "demo", 100, 10⟩).mv = none := by
  decide

/-- C3 counterexample: with the 腾讯（稳定） policy and tencent succeeding with
an empty mapping, `fetch_prices` reports `used = "腾讯"` while the returned
quote map is empty, so `provider_used` is a provider label although every
provider returned empty. -/
theorem c3_provider_used_counterexample :
    (fetch_prices (Except.ok []) (Except.ok []) (Except.ok []) "腾讯（稳定）").used = some "腾讯" ∧
    (fetch_prices (Except.ok []) (Except.ok []) (Except.ok []) "腾讯（稳定）").quotes = [] := by
  decide

/-- C3 amended: `used` is the label of the provider whose exception-free
invocation supplied the returned quote map — the 雪球 label only with a
non-empty map, while the 腾讯/akshare-branch labels can accompany an empty map
when that provider returned an empty mapping without raising; `used = none`
implies the returned map is empty, every label is one of the four fixed
strings, and per branch `used = none` holds exactly when the preferred
provider yielded no data and the final tencent attempt raised (雪球 policy:
xueqiu raised or returned empty, and tencent raised; 腾讯 policy: tencent
raised; akshare policy: akshare raised and tencent raised). -/
theorem c3_provider_used_amended :
    ∀ (xq tc ak : Except String QuoteMap) (preferred : String),
      ((fetch_prices xq tc ak preferred).used = some "雪球" →
        xq = .ok (fetch_prices xq tc ak preferred).quotes ∧
        (fetch_prices xq tc ak preferred).quotes ≠ []) ∧
      ((fetch_prices xq tc ak preferred).used = some "腾讯" →
        tc = .ok (fetch_prices xq tc ak preferred).quotes) ∧
      ((fetch_prices xq tc ak preferred).used = some "腾讯(备用)" →
        tc = .ok (fetch_prices xq tc ak preferred).quotes) ∧
      ((fetch_prices xq tc ak preferred).used = some "akshare(东方财富)" →
        ak = .ok (fetch_prices xq tc ak preferred).quotes) ∧
      ((fetch_prices xq tc ak preferred).used = none →
        (fetch_prices xq tc ak preferred).quotes = []) ∧
      (∀ l, (fetch_prices xq tc ak preferred).used = some l →
        l = "雪球" ∨ l = "腾讯" ∨ l = "腾讯(备用)" ∨ l = "akshare(东方财富)") ∧
      (startswith preferred "雪球" = true →
        ((fetch_prices xq tc ak preferred).used = none ↔
          (∃ e, tc = .error e) ∧ ∀ m, xq = .ok m → m = [])) ∧
      (startswith preferred "雪球" = false → startswith preferred "腾讯" = true →
        ((fetch_prices xq tc ak preferred).used = none ↔ ∃ e, tc = .error e)) ∧
      (startswith preferred "雪球" = false → startswith preferred "腾讯" = false →
        ((fetch_prices xq tc ak preferred).used = none ↔
          (∃ e, ak = .error e) ∧ ∃ e, tc = .error e)) := by
  intro xq tc ak preferred
  unfold fetch_prices
  by_cases s1 : startswith preferred "雪球" = true
  · rw [if_pos s1]
    rcases xq with e | q
    · rcases tc with e2 | q2 <;> dsimp only []
      · exact ⟨fun hu => by simp at hu, fun hu => by simp at hu,
          fun hu => by simp at hu, fun hu => by simp at hu,
          fun _ => rfl, fun l hu => by simp at hu,
          fun _ => Iff.intro (fun _ => ⟨⟨e2, rfl⟩, fun m hm => by simp at hm⟩) (fun _ => rfl),
          fun hs1f => absurd s1 (by rw [hs1f]; simp),
          fun hs1f => absurd s1 (by rw [hs1f]; simp)⟩
      · exact ⟨fun hu => by simp at hu, fun hu => by simp at hu,
          fun _ => rfl, fun hu => by simp at hu,
          fun hu => by simp at hu,
          fun l hu => Or.inr (Or.inr (Or.inl (Option.some.inj hu).symm)),
          fun _ => Iff.intro (fun hu => by simp at hu)
            (fun hr => by obtain ⟨⟨e2, hte⟩, _⟩ := hr; simp at hte),
          fun hs1f => absurd s1 (by rw [hs1f]; simp),
          fun hs1f => absurd s1 (by rw [hs1f]; simp)⟩
    · dsimp only []
      by_cases hq : q.isEmpty = true
      · rw [if_pos hq]
        have hqe : q = [] := by
          cases q with
          | nil => rfl
          | cons a t => simp at hq
        rcases tc with e2 | q2 <;> dsimp only []
        · exact ⟨fun hu => by simp at hu, fun hu => by simp at hu,
            fun hu => by simp at hu, fun hu => by simp at hu,
            fun _ => hqe, fun l hu => by simp at hu,
            fun _ => Iff.intro
              (fun _ => ⟨⟨e2, rfl⟩, fun m hm => Except.ok.inj hm ▸ hqe⟩) (fun _ => rfl),
            fun hs1f => absurd s1 (by rw [hs1f]; simp),
            fun hs1f => absurd s1 (by rw [hs1f]; simp)⟩
        · exact ⟨fun hu => by simp at hu, fun hu => by simp at hu,
            fun _ => rfl, fun hu => by simp at hu,
            fun hu => by simp at hu,
            fun l hu => Or.inr (Or.inr (Or.inl (Option.some.inj hu).symm)),
            fun _ => Iff.intro (fun hu => by simp at hu)
              (fun hr => by obtain ⟨⟨e2, hte⟩, _⟩ := hr; simp at hte),
            fun hs1f => absurd s1 (by rw [hs1f]; simp),
            fun hs1f => absurd s1 (by rw [hs1f]; simp)⟩
      · rw [if_neg hq]
        have hne : q ≠ [] := by
          intro hh
          rw [hh] at hq
          simp at hq
        exact ⟨fun _ => ⟨rfl, hne⟩, fun hu => by simp at hu,
          fun hu => by simp at hu, fun hu => by simp at hu,
          fun hu => by simp at hu,
          fun l hu => Or.inl (Option.some.inj hu).symm,
          fun _ => Iff.intro (fun hu => by simp at hu)
            (fun hr => absurd (hr.2 q rfl) hne),
          fun hs1f => absurd s1 (by rw [hs1f]; simp),
          fun hs1f => absurd s1 (by rw [hs1f]; simp)⟩
  · rw [if_neg s1]
    by_cases s2 : startswith preferred "腾讯" = true
    · rw [if_pos s2]
      rcases tc with e | q <;> dsimp only []
      · exact ⟨fun hu => by simp at hu, fun hu => by simp at hu,
          fun hu => by simp at hu, fun hu => by simp at hu,
          fun _ => rfl, fun l hu => by simp at hu,
          fun hs => absurd hs s1,
          fun _ _ => Iff.intro (fun _ => ⟨e, rfl⟩) (fun _ => rfl),
          fun _ hs2f => absurd s2 (by rw [hs2f]; simp)⟩
      · exact ⟨fun hu => by simp at hu, fun _ => rfl,
          fun hu => by simp at hu, fun hu => by simp at hu,
          fun hu => by simp at hu,
          fun l hu => Or.inr (Or.inl (Option.some.inj hu).symm),
          fun hs => absurd hs s1,
          fun _ _ => Iff.intro (fun hu => by simp at hu)
            (fun hr => by obtain ⟨e, hte⟩ := hr; simp at hte),
          fun _ hs2f => absurd s2 (by rw [hs2f]; simp)⟩
    · rw [if_neg s2]
      rcases ak with e | q
      · rcases tc with e2 | q2 <;> dsimp only []
        · exact ⟨fun hu => by simp at hu, fun hu => by simp at hu,
            fun hu => by simp at hu, fun hu => by simp at hu,
            fun _ => rfl, fun l hu => by simp at hu,
            fun hs => absurd hs s1, fun _ hs2 => absurd hs2 s2,
            fun _ _ => Iff.intro (fun _ => ⟨⟨e, rfl⟩, ⟨e2, rfl⟩⟩) (fun _ => rfl)⟩
        · exact ⟨fun hu => by simp at hu, fun hu => by simp at hu,
            fun _ => rfl, fun hu => by simp at hu,
            fun hu => by simp at hu,
            fun l hu => Or.inr (Or.inr (Or.inl (Option.some.inj hu).symm)),
            fun hs => absurd hs s1, fun _ hs2 => absurd hs2 s2,
            fun _ _ => Iff.intro (fun hu => by simp at hu)
              (fun hr => by obtain ⟨_, ⟨e2, hte⟩⟩ := hr; simp at hte)⟩
      · dsimp only []
        exact ⟨fun hu => by simp at hu, fun hu => by simp at hu,
          fun hu => by simp at hu, fun _ => rfl,
          fun hu => by simp at hu,
          fun l hu => Or.inr (Or.inr (Or.inr (Option.some.inj hu).symm)),
          fun hs => absurd hs s1, fun _ hs2 => absurd hs2 s2,
          fun _ _ => Iff.intro (fun hu => by simp at hu)
            (fun hr => by obtain ⟨⟨e, hae⟩, _⟩ := hr; simp at hae)⟩

/-- Witness for the amended C3: the 腾讯 policy with an empty-but-successful
tencent invocation (label with empty map), and the 雪球 policy with an empty
xueqiu result plus a raising tencent fallback (used is none although xueqiu
did not raise). -/
theorem c3_provider_used_amended_witness :
    (Except.ok [] : Except String QuoteMap) =
      .ok (fetch_prices (Except.ok []) (Except.ok []) (Except.ok []) "腾讯（稳定）").quotes ∧
    (fetch_prices (Except.ok []) (Except.error "超时") (Except.ok [])
      "雪球优先（失败自动切换）").used = none := by
  have h := c3_provider_used_amended (Except.ok []) (Except.ok []) (Except.ok []) "腾讯（稳定）"
  have h2 := c3_provider_used_amended (Except.ok []) (Except.error "超时") (Except.ok [])
    "雪球优先（失败自动切换）"
  refine ⟨h.2.1 (by decide), ?_⟩
  exact (h2.2.2.2.2.2.2.1 (by decide)).mpr ⟨⟨"超时", rfl⟩, fun m hm => (Except.ok.inj hm).symm⟩

/-- C6 counterexample: in the daily-brief path `fetch_tencent_quotes` is called
with no surrounding try/except, so a transport failure propagates out of
`main` and no brief is produced — the quote-fetch step of that path is not
exception-free. -/
theorem c6_brief_halts_counterexample :
    brief_main [⟨"600000", some "示例", some 100, some 10⟩] 2000
      (Except.error "ConnectTimeout") = Except.error "ConnectTimeout" := by
  rfl

/-- C6 amended: the interactive fetch step is total — for every combination of
provider outcomes (including all providers raising) it returns an outcome and
the valuation still produces one row per holding — while the daily-brief path
completes exactly when the tencent transport succeeds and propagates the
transport error otherwise. -/
theorem c6_degradation_amended :
    ∀ (xq tc ak : Except String QuoteMap) (preferred : String) (hs : List Holding)
      (bhs : List BriefHolding) (ta : ℚ) (transport : Except String String),
      (app_rows (fetch_prices xq tc ak preferred).quotes hs).length = hs.length ∧
      (∀ text, transport = .ok text → ∃ b, brief_main bhs ta transport = .ok b) ∧
      (∀ e, transport = .error e → brief_main bhs ta transport = .error e) := by
  intro xq tc ak preferred hs bhs ta transport
  refine ⟨?_, fun text ht => ?_, fun e ht => ?_⟩
  · exact List.length_map hs (rowOf (fetch_prices xq tc ak preferred).quotes)
  · rw [ht]
    exact ⟨_, rfl⟩
  · rw [ht]
    rfl

/-- Witness for the amended C6: all three providers raising with the 雪球
policy still yields a full row list, and a successful transport yields a
brief. -/
theorem c6_degradation_amended_witness :
    (app_rows (fetch_prices (Except.error "x") (Except.error "y") (Except.error "z")
        "雪球优先（失败自动切换）").quotes [⟨"600000", "demo", 100, 10⟩]).length = 1 ∧
    ∃ b, brief_main [] 0 (Except.ok "") = Except.ok b := by
  have h := c6_degradation_amended (Except.error "x") (Except.error "y") (Except.error "z")
    "雪球优先（失败自动切换）" [⟨"600000", "demo", 100, 10⟩] [] 0 (Except.ok "")
  exact ⟨h.1, h.2.1 "" rfl⟩

/-- C7 counterexample: with the akshare policy, akshare returning an empty
mapping without raising and tencent — the next provider in that policy's
order — holding a non-empty mapping, the fetch returns akshare's empty map
(the fallback runs only on exception, never on an empty success), so the
returned map is not the first provider in the policy order that yields at
least one entry. -/
theorem c7_akshare_empty_counterexample :
    (fetch_prices (Except.ok []) (Except.ok [("600000", ⟨12, some 11⟩)]) (Except.ok [])
      "akshare(东方财富)").quotes = [] ∧
    ([("600000", (⟨12, some 11⟩ : Quote))] : QuoteMap) ≠ [] := by
  decide

/-- C7 amended: the quote map returned by one `fetch_prices` cycle is empty or
is the entire result of exactly one provider invocation, never a union of
entries from two providers.  A non-empty exception-free preferred result is
always the one returned; the tencent fallback result is returned in the 雪球
branch whenever xueqiu raised or returned empty, and in the akshare branch
only when akshare raised — an exception-free akshare result is returned as-is
even when empty, so the returned map need not come from the first provider in
the order that would yield entries. -/
theorem c7_single_source :
    ∀ (xq tc ak : Except String QuoteMap) (preferred : String),
      ((fetch_prices xq tc ak preferred).quotes = [] ∨
        xq = .ok (fetch_prices xq tc ak preferred).quotes ∨
        tc = .ok (fetch_prices xq tc ak preferred).quotes ∨
        ak = .ok (fetch_prices xq tc ak preferred).quotes) ∧
      (startswith preferred "雪球" = true →
        ∀ m, xq = .ok m → m ≠ [] → (fetch_prices xq tc ak preferred).quotes = m) ∧
      (startswith preferred "雪球" = false → startswith preferred "腾讯" = true →
        ∀ m, tc = .ok m → (fetch_prices xq tc ak preferred).quotes = m) ∧
      (startswith preferred "雪球" = false → startswith preferred "腾讯" = false →
        ∀ m, ak = .ok m → (fetch_prices xq tc ak preferred).quotes = m) ∧
      (startswith preferred "雪球" = true →
        ∀ m, tc = .ok m → (∀ q, xq = .ok q → q = []) →
          (fetch_prices xq tc ak preferred).quotes = m) ∧
      (startswith preferred "雪球" = false → startswith preferred "腾讯" = false →
        (∃ e, ak = .error e) →
        ∀ m, tc = .ok m → (fetch_prices xq tc ak preferred).quotes = m) := by
  intro xq tc ak preferred
  unfold fetch_prices
  by_cases s1 : startswith preferred "雪球" = true
  · rw [if_pos s1]
    rcases xq with e | q
    · rcases tc with e2 | q2 <;> dsimp only []
      · exact ⟨Or.inl rfl, fun _ m hm => by simp at hm,
          fun hs1 => absurd s1 (by rw [hs1]; simp),
          fun hs1 => absurd s1 (by rw [hs1]; simp),
          fun _ m hm _ => by simp at hm,
          fun hs1 => absurd s1 (by rw [hs1]; simp)⟩
      · exact ⟨Or.inr (Or.inr (Or.inl rfl)), fun _ m hm => by simp at hm,
          fun hs1 => absurd s1 (by rw [hs1]; simp),
          fun hs1 => absurd s1 (by rw [hs1]; simp),
          fun _ m hm _ => Except.ok.inj hm,
          fun hs1 => absurd s1 (by rw [hs1]; simp)⟩
    · dsimp only []
      by_cases hq : q.isEmpty = true
      · rw [if_pos hq]
        have hqe : q = [] := by
          cases q with
          | nil => rfl
          | cons a t => simp at hq
        rcases tc with e2 | q2 <;> dsimp only []
        · exact ⟨Or.inl hqe, fun _ m hm hmne => absurd (Except.ok.inj hm ▸ hqe) hmne,
            fun hs1 => absurd s1 (by rw [hs1]; simp),
            fun hs1 => absurd s1 (by rw [hs1]; simp),
            fun _ m hm _ => by simp at hm,
            fun hs1 => absurd s1 (by rw [hs1]; simp)⟩
        · exact ⟨Or.inr (Or.inr (Or.inl rfl)),
            fun _ m hm hmne => absurd (Except.ok.inj hm ▸ hqe) hmne,
            fun hs1 => absurd s1 (by rw [hs1]; simp),
            fun hs1 => absurd s1 (by rw [hs1]; simp),
            fun _ m hm _ => Except.ok.inj hm,
            fun hs1 => absurd s1 (by rw [hs1]; simp)⟩
      · rw [if_neg hq]
        have hne : q ≠ [] := by
          intro hh
          rw [hh] at hq
          simp at hq
        exact ⟨Or.inr (Or.inl rfl), fun _ m hm _ => Except.ok.inj hm,
          fun hs1 => absurd s1 (by rw [hs1]; simp),
          fun hs1 => absurd s1 (by rw [hs1]; simp),
          fun _ m _ hall => absurd (hall q rfl) hne,
          fun hs1 => absurd s1 (by rw [hs1]; simp)⟩
  · rw [if_neg s1]
    by_cases s2 : startswith preferred "腾讯" = true
    · rw [if_pos s2]
      rcases tc with e | q <;> dsimp only []
      · exact ⟨Or.inl rfl, fun hs => absurd hs s1, fun _ _ m hm => by simp at hm,
          fun _ hs2f => absurd s2 (by rw [hs2f]; simp),
          fun hs => absurd hs s1,
          fun _ hs2f => absurd s2 (by rw [hs2f]; simp)⟩
      · exact ⟨Or.inr (Or.inr (Or.inl rfl)), fun hs => absurd hs s1,
          fun _ _ m hm => Except.ok.inj hm,
          fun _ hs2f => absurd s2 (by rw [hs2f]; simp),
          fun hs => absurd hs s1,
          fun _ hs2f => absurd s2 (by rw [hs2f]; simp)⟩
    · rw [if_neg s2]
      rcases ak with e | q
      · rcases tc with e2 | q2 <;> dsimp only []
        · exact ⟨Or.inl rfl, fun hs => absurd hs s1,
            fun _ hs2 => absurd hs2 s2, fun _ _ m hm => by simp at hm,
            fun hs => absurd hs s1,
            fun _ _ _ m hm => by simp at hm⟩
        · exact ⟨Or.inr (Or.inr (Or.inl rfl)), fun hs => absurd hs s1,
            fun _ hs2 => absurd hs2 s2, fun _ _ m hm => by simp at hm,
            fun hs => absurd hs s1,
            fun _ _ _ m hm => Except.ok.inj hm⟩
      · dsimp only []
        exact ⟨Or.inr (Or.inr (Or.inr rfl)), fun hs => absurd hs s1,
          fun _ hs2 => absurd hs2 s2, fun _ _ m hm => Except.ok.inj hm,
          fun hs => absurd hs s1,
          fun _ _ hex m hm => by obtain ⟨e, hae⟩ := hex; simp at hae⟩

/-- Witness for the amended C7: with the 雪球 policy a non-empty xueqiu result
is returned whole, and an empty xueqiu result falls through to the tencent
result, returned whole. -/
theorem c7_single_source_witness :
    (fetch_prices (Except.ok [("600000", ⟨12, some 11⟩)]) (Except.ok []) (Except.ok [])
      "雪球优先（失败自动切换）").quotes = [("600000", ⟨12, some 11⟩)] ∧
    (fetch_prices (Except.ok []) (Except.ok [("000001", ⟨9, none⟩)]) (Except.ok [])
      "雪球优先（失败自动切换）").quotes = [("000001", ⟨9, none⟩)] := by
  have h := c7_single_source (Except.ok [("600000", ⟨12, some 11⟩)]) (Except.ok [])
    (Except.ok []) "雪球优先（失败自动切换）"
  have h2 := c7_single_source (Except.ok []) (Except.ok [("000001", ⟨9, none⟩)])
    (Except.ok []) "雪球优先（失败自动切换）"
  refine ⟨h.2.1 (by decide) [("600000", ⟨12, some 11⟩)] rfl (by decide), ?_⟩
  exact h2.2.2.2.2.1 (by decide) [("000001", ⟨9, none⟩)] rfl
    (fun q hq => (Except.ok.inj hq).symm)

/-- C10: parsing of the tencent delimited payload is total in both pipelines —
every returned entry originates from some `;`-separated line whose record
parsed successfully, a line that does not match the `v_(sh|sz)\d{6}="..."`
pattern contributes nothing, a matched record with fewer than 5 `~`-fields
contributes nothing, a last-price field that does not parse as a number makes
the record dropped, and a well-formed record with positive last price yields
exactly its parsed entry, with an unparsable previous close degraded to an
absent value. -/
theorem c10_tencent_parser_total :
    ∀ (text : String) (line : List Char),
      (∀ e ∈ fetch_prices_tencent text,
        ∃ l ∈ splitOnChar ';' text.toList, parseTencentRecord l = some e) ∧
      (∀ e ∈ fetch_tencent_quotes text,
        ∃ l ∈ splitOnChar ';' text.toList, parseBriefTencentRecord l = some e) ∧
      (reSearchTencent line = none →
        parseTencentRecord line = none ∧ parseBriefTencentRecord line = none) ∧
      (∀ code payload, reSearchTencent line = some (code, payload) →
        (splitOnChar '~' payload).length ≤ 4 →
        parseTencentRecord line = none ∧ parseBriefTencentRecord line = none) ∧
      (∀ code payload, reSearchTencent line = some (code, payload) →
        safe_float ((splitOnChar '~' payload).getD 3 []) = none →
        parseTencentRecord line = none ∧ parseBriefTencentRecord line = none) ∧
      (∀ code payload l, reSearchTencent line = some (code, payload) →
        4 < (splitOnChar '~' payload).length →
        safe_float ((splitOnChar '~' payload).getD 3 []) = some l → 0 < l →
        parseTencentRecord line =
          some (code, ⟨l, safe_float ((splitOnChar '~' payload).getD 4 [])⟩)) := by
  intro text line
  refine ⟨?_, ?_, ?_, ?_, ?_, ?_⟩
  · intro e he
    unfold fetch_prices_tencent at he
    exact (foldl_dinsert_mem parseTencentRecord _ _ e he).resolve_left (by simp)
  · intro e he
    unfold fetch_tencent_quotes at he
    exact (foldl_dinsert_mem parseBriefTencentRecord _ _ e he).resolve_left (by simp)
  · intro h
    constructor <;> simp [parseTencentRecord, parseBriefTencentRecord, h]
  · intro code payload h hle
    have hn : ¬ 4 < (splitOnChar '~' payload).length := by omega
    constructor <;> simp [parseTencentRecord, parseBriefTencentRecord, h, hn]
  · intro code payload h hf
    simp only [List.getD_eq_getElem?_getD] at hf
    by_cases hlen : 4 < (splitOnChar '~' payload).length
    · constructor <;> simp [parseTencentRecord, parseBriefTencentRecord, h, hlen, hf]
    · constructor <;> simp [parseTencentRecord, parseBriefTencentRecord, h, hlen]
  · intro code payload l h hlen hf hl
    simp only [List.getD_eq_getElem?_getD] at hf
    simp [parseTencentRecord, h, hlen, hf, hl]

/-- Witness for C10 on concrete lines: a non-matching line, a matched record
with too few fields, a record with an unparsable last price, and a well-formed
record that parses to its entry. -/
theorem c10_tencent_parser_total_witness :
    parseTencentRecord ("garbage".toList) = none ∧
    parseTencentRecord ("v_sh600000=\"a~b~c\"".toList) = none ∧
    parseTencentRecord ("v_sz000002=\"w~x~y~zz~8.8\"".toList) = none ∧
    parseTencentRecord ("v_sz000001=\"w~x~y~10.5~9.5\"".toList) =
      some ("000001", ⟨21/2, safe_float ("9.5".toList)⟩) := by
  refine ⟨?_, ?_, ?_, ?_⟩
  · exact ((c10_tencent_parser_total "" ("garbage".toList)).2.2.1 (by decide)).1
  · exact ((c10_tencent_parser_total "" ("v_sh600000=\"a~b~c\"".toList)).2.2.2.1
      "600000" ("a~b~c".toList) (by decide) (by decide)).1
  · exact ((c10_tencent_parser_total "" ("v_sz000002=\"w~x~y~zz~8.8\"".toList)).2.2.2.2.1
      "000002" ("w~x~y~zz~8.8".toList) (by decide) (by decide)).1
  · have hf : safe_float ((splitOnChar '~' ("w~x~y~10.5~9.5".toList)).getD 3 []) =
        some (21/2) := by
      have h3 : (splitOnChar '~' ("w~x~y~10.5~9.5".toList)).getD 3 [] = "10.5".toList := by
        decide
      rw [h3]
      simp [safe_float, parseUnsigned, natVal]
      norm_num
    have h6 := (c10_tencent_parser_total "" ("v_sz000001=\"w~x~y~10.5~9.5\"".toList)).2.2.2.2.2
      "000001" ("w~x~y~10.5~9.5".toList) (21/2) (by decide) (by decide) hf (by norm_num)
    rw [h6]
    have h4 : (splitOnChar '~' ("w~x~y~10.5~9.5".toList)).getD 4 [] = "9.5".toList := by decide
    rw [h4]
